import Mathlib

/-!
Verification of `src/pl/math/v_exp10f_2u4.c` (AArch64 vector single-precision
`exp10`).  Floats are modelled as their IEEE-754 binary32 bit patterns
(`Nat`, < 2^32).  Finite values are carried exactly as dyadic rationals
`m·2^e` (`Dy`); every lane operation decodes its operands, computes the
exact result and re-encodes it with round-to-nearest-even, which is the
semantics of the NEON lane operations used by the source (FMA operations
round once, after the exact multiply-add).
-/

set_option maxRecDepth 100000
set_option maxHeartbeats 4000000
set_option exponentiation.threshold 2000

namespace VExp10

/-- An exact dyadic rational `m·2^e`. -/
structure Dy where
  m : ℤ
  e : ℤ
  deriving DecidableEq

/-- The rational value of a dyadic. -/
def Dy.val (d : Dy) : ℚ := (d.m : ℚ) * 2 ^ d.e

/-- Exact product of dyadics. -/
def Dy.mul (a b : Dy) : Dy := ⟨a.m * b.m, a.e + b.e⟩

/-- Exact sum of dyadics (align to the smaller exponent). -/
def Dy.add (a b : Dy) : Dy :=
  if a.e ≤ b.e then ⟨a.m + b.m * ((2 ^ (b.e - a.e).toNat : ℕ) : ℤ), a.e⟩
  else ⟨a.m * ((2 ^ (a.e - b.e).toNat : ℕ) : ℤ) + b.m, b.e⟩

/-- Negation. -/
def Dy.neg (a : Dy) : Dy := ⟨-a.m, a.e⟩

/-- `|x| < |y|`, decided exactly on the dyadic representation. -/
def Dy.abslt (x y : Dy) : Bool :=
  if x.e ≤ y.e then x.m.natAbs < y.m.natAbs * 2 ^ (y.e - x.e).toNat
  else x.m.natAbs * 2 ^ (x.e - y.e).toNat < y.m.natAbs

/-- Semantic value of one binary32 lane. -/
inductive FVal where
  | nan : FVal
  | inf : Bool → FVal          -- `true` = negative infinity
  | fin : Dy → FVal
  deriving DecidableEq

/-- Decode a binary32 bit pattern: sign bit 31, exponent bits 23..30,
mantissa bits 0..22.  A normal number with exponent field `ef` and mantissa
`mant` is `±(2^23 + mant)·2^(ef−150)`, a subnormal is `±mant·2^(−149)`. -/
def decodeVal (u : Nat) : FVal :=
  let neg : Bool := u / 2 ^ 31 % 2 = 1
  let ef : Nat := u / 2 ^ 23 % 256
  let mant : Nat := u % 2 ^ 23
  if ef = 255 then (if mant = 0 then .inf neg else .nan)
  else if ef = 0 then
    .fin ⟨(if neg then -1 else 1) * (mant : ℤ), -149⟩
  else
    .fin ⟨(if neg then -1 else 1) * ((2 ^ 23 + mant : ℕ) : ℤ), (ef : ℤ) - 150⟩

/-- Number of bits of a value below `2^64`, by a structural scan so that
it reduces inside the kernel. -/
def bitlen64 (n : Nat) : Nat :=
  (List.range 64).countP (fun i => 2 ^ i ≤ n)

/-- Bit count chunked in 64-bit steps (fuel-driven structural recursion so
that it reduces cheaply inside the kernel). -/
def bitlenAux : Nat → Nat → Nat
  | 0, _ => 0
  | fuel + 1, n => if n < 2 ^ 64 then bitlen64 n else 64 + bitlenAux fuel (n / 2 ^ 64)

/-- Number of bits of `n` (`0` for `0`); correct for `n < 2^1408`. -/
def bitlen (n : Nat) : Nat := bitlenAux 22 n

/-- Pack a sign bit, exponent and 24-bit significand into a binary32
pattern (exponent clamped to infinity above, subnormal below). -/
def packF32 (sb : Nat) (e1 : ℤ) (m1 : Nat) : Nat :=
  if 127 < e1 then sb + 0x7f800000
  else if m1 < 2 ^ 23 then sb + m1
  else sb + (e1 + 127).toNat * 2 ^ 23 + (m1 - 2 ^ 23)

/-- Round the exact dyadic `d` to binary32 (round to nearest, ties to
even), returning the result's bit pattern; overflows to infinity,
underflows through the subnormals to (signed) zero. -/
def roundD (d : Dy) : Nat :=
  if d.m = 0 then 0
  else
    let sb : Nat := if d.m < 0 then 2 ^ 31 else 0
    let a : Nat := d.m.natAbs
    -- floor of log₂ of the magnitude, then clamp to the subnormal range
    let e0 : ℤ := max ((bitlen a : ℤ) - 1 + d.e) (-126)
    -- significand rounded to 24 bits (scale 2^(e0−23)), ties to even
    let t : ℤ := e0 - 23
    let m0 : Nat :=
      if d.e ≥ t then a * 2 ^ (d.e - t).toNat
      else
        let s : Nat := (t - d.e).toNat
        let q := a / 2 ^ s
        let r := a % 2 ^ s
        if 2 * r < 2 ^ s then q
        else if 2 ^ s < 2 * r then q + 1
        else if q % 2 = 0 then q else q + 1
    let e1 : ℤ := if 2 ^ 24 ≤ m0 then e0 + 1 else e0
    let m1 : Nat := if 2 ^ 24 ≤ m0 then 2 ^ 23 else m0
    packF32 sb e1 m1

/-- Encode a semantic value back to a bit pattern (canonical quiet NaN). -/
def encodeF : FVal → Nat
  | .nan => 0x7fc00000
  | .inf neg => if neg then 0xff800000 else 0x7f800000
  | .fin d => roundD d

/-- Exact product with IEEE special-value rules (`∞·0 = NaN`). -/
def prodVal : FVal → FVal → FVal
  | .nan, _ => .nan
  | _, .nan => .nan
  | .inf s, .inf t => .inf (xor s t)
  | .inf s, .fin q => if q.m = 0 then .nan else .inf (xor s (q.m < 0))
  | .fin q, .inf t => if q.m = 0 then .nan else .inf (xor (q.m < 0) t)
  | .fin a, .fin b => .fin (a.mul b)

/-- Exact sum with IEEE special-value rules (`∞ − ∞ = NaN`). -/
def addVal : FVal → FVal → FVal
  | .nan, _ => .nan
  | _, .nan => .nan
  | .inf s, .inf t => if s = t then .inf s else .nan
  | .inf s, .fin _ => .inf s
  | .fin _, .inf t => .inf t
  | .fin a, .fin b => .fin (a.add b)

/-- IEEE negation. -/
def negVal : FVal → FVal
  | .nan => .nan
  | .inf s => .inf (!s)
  | .fin q => .fin q.neg

/-! Scalar (one-lane) versions of the NEON operations the source uses;
each vector intrinsic acts lane-wise as one of these. -/

/-- `vfmaq_f32 a b c` lane: fused `a + b·c`, one rounding. -/
def fmaF (a b c : Nat) : Nat :=
  encodeF (addVal (decodeVal a) (prodVal (decodeVal b) (decodeVal c)))

/-- `vfmsq_f32 a b c` lane: fused `a − b·c`, one rounding. -/
def fmsF (a b c : Nat) : Nat :=
  encodeF (addVal (decodeVal a) (negVal (prodVal (decodeVal b) (decodeVal c))))

/-- `vmulq_f32` lane. -/
def mulF (a b : Nat) : Nat := encodeF (prodVal (decodeVal a) (decodeVal b))

/-- `vsubq_f32` lane. -/
def subF (a b : Nat) : Nat :=
  encodeF (addVal (decodeVal a) (negVal (decodeVal b)))

/-- `vclezq_f32` lane: all-ones mask iff the lane is `≤ 0` (false on NaN). -/
def clezF (a : Nat) : Nat :=
  match decodeVal a with
  | .nan => 0
  | .inf s => if s then 0xffffffff else 0
  | .fin q => if q.m ≤ 0 then 0xffffffff else 0

/-- `vcagtq_f32` lane: all-ones mask iff `|a| > |b|` (false on NaN). -/
def cagtF (a b : Nat) : Nat :=
  match decodeVal a, decodeVal b with
  | .nan, _ => 0
  | _, .nan => 0
  | .inf _, .inf _ => 0
  | .inf _, .fin _ => 0xffffffff
  | .fin _, .inf _ => 0
  | .fin a, .fin b => if b.abslt a then 0xffffffff else 0

/-- `vcgeq_u32` lane. -/
def cgeU (a b : Nat) : Nat := if b ≤ a then 0xffffffff else 0

/-- `vaddq_u32` lane. -/
def addU (a b : Nat) : Nat := (a + b) % 2 ^ 32

/-- `vsubq_u32` lane (32-bit wraparound). -/
def subU (a b : Nat) : Nat := (a + 2 ^ 32 - b % 2 ^ 32) % 2 ^ 32

/-- `vandq_u32` lane. -/
def andU (a b : Nat) : Nat := a &&& b

/-- `vshlq_n_u32 (…, 23)` lane. -/
def shl23U (a : Nat) : Nat := a * 2 ^ 23 % 2 ^ 32

/-- `vbslq_f32` lane: bitwise select, `(m AND a) OR (NOT m AND b)`. -/
def bslF (m a b : Nat) : Nat := (m &&& a) ||| ((m ^^^ 0xffffffff) &&& b)

/-! The constant table of the source (`data`), as binary32/u32 bit
patterns.  Coefficient `data_polyI` is `data.poly[I]`. -/

def data_poly0 : Nat := 0x40135d8b  -- 0x1.26bb16p+1f
def data_poly1 : Nat := 0x4029a869  -- 0x1.5350d2p+1f
def data_poly2 : Nat := 0x40023a25  -- 0x1.04744ap+1f
def data_poly3 : Nat := 0x3f96c0bb  -- 0x1.2d8176p+0f
def data_poly4 : Nat := 0x3f095a0d  -- 0x1.12b41ap-1f
def data_shift : Nat := 0x4b400000  -- 0x1.8p23f
def data_log10_2 : Nat := 0x40549a78  -- 0x1.a934fp+1
def data_log2_10_hi : Nat := 0x3e9a209b  -- 0x1.344136p-2
def data_log2_10_lo : Nat := 0xb2760860  -- -0x1.ec10cp-27
def data_scale_thresh : Nat := 0x43400000  -- ScaleBound = 192.0f

def ExponentBias : Nat := 0x3f800000
/-- `asuint (0x1p-63)` (strict build). -/
def TinyBound : Nat := 0x20000000
/-- `asuint (38.0f) = BigBound` (strict build; `SpecialBound = 38.0f`). -/
def BigBound : Nat := 0x42180000
/-- `BigBound - TinyBound` (strict build). -/
def Thres : Nat := 0x22180000
/-- `asuint (126.0f)` (fast build; `SpecialBound = 126.0f`). -/
def SpecialBoundFastPat : Nat := 0x42fc0000
def SpecialOffset : Nat := 0x82000000
def SpecialBias : Nat := 0x7f000000

/-! The 4-lane batch and the few genuinely vector-level operations. -/

/-- A 4-lane vector of 32-bit lanes. -/
abbrev V4 := Fin 4 → Nat

/-- Modelled from the spec: `v_any_u32` of `v_math.h` (repository code not
under `src/`) — true iff any lane of the mask is non-zero ("if no lane
needs special handling, return the ordinary reconstruction; otherwise
invoke the … Special-Case Handler"). -/
def v_any_u32 (a : V4) : Bool :=
  (a 0 != 0) || (a 1 != 0) || (a 2 != 0) || (a 3 != 0)

/-- Modelled from the spec: `v_call_f32` of `v_math.h` (repository code not
under `src/`) — "flagged lanes are recomputed by invoking the scalar
reference routine per flagged lane and substituting its result"; unflagged
lanes keep `y`. -/
def v_call_f32 (f : Nat → Nat) (x y cmp : V4) : V4 :=
  fun i => if cmp i ≠ 0 then f (x i) else y i

/-! The source's computations, lane by lane.  Every intrinsic in the body
of `V_NAME_F1 (exp10)` is lane-wise, so the shared middle section is
transcribed as scalar compositions applied per lane. -/

/-- `z = vfmaq_f32 (data.shift, x, data.log10_2)`. -/
def lane_z (x : Nat) : Nat := fmaF data_shift x data_log10_2

/-- `n = vsubq_f32 (z, data.shift)`. -/
def lane_n (x : Nat) : Nat := subF (lane_z x) data_shift

/-- `r = vfmsq_f32 (x, n, data.log2_10_hi); r = vfmsq_f32 (r, n, data.log2_10_lo)`. -/
def lane_r (x : Nat) : Nat :=
  fmsF (fmsF x (lane_n x) data_log2_10_hi) (lane_n x) data_log2_10_lo

/-- `e = vshlq_n_u32 (vreinterpretq_u32_f32 (z), 23)`. -/
def lane_e (x : Nat) : Nat := shl23U (lane_z x)

/-- `scale = vreinterpretq_f32_u32 (vaddq_u32 (e, ExponentBias))`. -/
def lane_scale (x : Nat) : Nat := addU (lane_e x) ExponentBias

/-- The Estrin-factored polynomial block (lines 117–122 of the source). -/
def lane_poly (x : Nat) : Nat :=
  let r := lane_r x
  let r2 := mulF r r
  let p := fmaF data_poly3 data_poly4 r
  let q := fmaF data_poly1 data_poly2 r
  let q' := fmaF q p r2
  let p' := mulF data_poly0 r
  fmaF p' q' r2

/-! Fast-build (`!WANT_SIMD_EXCEPT`) special-case handler. -/

/-- `b = vandq_u32 (vclezq_f32 (n), SpecialOffset)`. -/
def spc_b (n : Nat) : Nat := andU (clezF n) SpecialOffset

/-- `s1 = vreinterpretq_f32_u32 (vaddq_u32 (b, SpecialBias))`. -/
def spc_s1 (n : Nat) : Nat := addU (spc_b n) SpecialBias

/-- `s2 = vreinterpretq_f32_u32 (vsubq_u32 (e, b))`. -/
def spc_s2 (n e : Nat) : Nat := subU e (spc_b n)

/-- The fast-build `special_case`, one lane (lines 63–78 of the source). -/
def special_case_noexcept_lane (poly n e cmp1 scale : Nat) : Nat :=
  let s1 := spc_s1 n
  let s2 := spc_s2 n e
  let cmp2 := cagtF n data_scale_thresh
  let r2 := mulF s1 s1
  let r1 := mulF (fmaF s2 poly s2) s1
  let r0 := fmaF scale poly scale
  let r := bslF cmp1 r1 r0
  bslF cmp2 r2 r

/-- The fast-build `special_case` (vector). -/
def special_case_noexcept (poly n e cmp1 scale : V4) : V4 :=
  fun i => special_case_noexcept_lane (poly i) (n i) (e i) (cmp1 i) (scale i)

/-- The fast-build entry point `V_NAME_F1 (exp10)` with `!WANT_SIMD_EXCEPT`. -/
def v_exp10f_noexcept (x : V4) : V4 :=
  let n : V4 := fun i => lane_n (x i)
  let e : V4 := fun i => lane_e (x i)
  let scale : V4 := fun i => lane_scale (x i)
  let cmp : V4 := fun i => cagtF (n i) SpecialBoundFastPat
  let poly : V4 := fun i => lane_poly (x i)
  if v_any_u32 cmp then special_case_noexcept poly n e cmp scale
  else fun i => fmaF (scale i) (poly i) (scale i)

/-! Strict-build (`WANT_SIMD_EXCEPT`) classification, masking and entry. -/

/-- The strict-build lane classification
`asuint (x) & 0x7fffffff - TinyBound >= BigBound - TinyBound` (lines 88–93). -/
def strictCmp (u : Nat) : Nat :=
  cgeU (subU (andU u 0x7fffffff) TinyBound) Thres

/-- `x = vbslq_f32 (cmp, v_f32 (1), x)`: flagged lanes masked to `1.0f`. -/
def maskSpecial (x : V4) : V4 :=
  fun i => bslF (strictCmp (x i)) 0x3f800000 (x i)

/-- The strict-build `special_case` (lines 49–55): fall back to the scalar
routine on special lanes. -/
def special_case_except (exp10f : Nat → Nat) (x y cmp : V4) : V4 :=
  v_call_f32 exp10f x y cmp

/-- The strict-build entry point `V_NAME_F1 (exp10)` with
`WANT_SIMD_EXCEPT`, parametric in the external scalar `exp10f`. -/
def v_exp10f_except (exp10f : Nat → Nat) (x : V4) : V4 :=
  let cmp : V4 := fun i => strictCmp (x i)
  let xm := x
  let xmsk : V4 := if v_any_u32 cmp then maskSpecial x else x
  let scale : V4 := fun i => lane_scale (xmsk i)
  let poly : V4 := fun i => lane_poly (xmsk i)
  let y : V4 := fun i => fmaF (scale i) (poly i) (scale i)
  if v_any_u32 cmp then special_case_except exp10f xm y cmp
  else y

/-- The fast-build function, lane by lane. -/
def exp10f_noexcept_lane (x : Nat) : Nat :=
  if cagtF (lane_n x) SpecialBoundFastPat = 0 then
    fmaF (lane_scale x) (lane_poly x) (lane_scale x)
  else
    special_case_noexcept_lane (lane_poly x) (lane_n x) (lane_e x)
      (cagtF (lane_n x) SpecialBoundFastPat) (lane_scale x)

/-- The strict-build function, lane by lane (parametric in the external
scalar `exp10f`). -/
def exp10f_except_lane (f : Nat → Nat) (x : Nat) : Nat :=
  if strictCmp x = 0 then fmaF (lane_scale x) (lane_poly x) (lane_scale x)
  else f x

/-- Exponent field of a binary32 bit pattern. -/
def expField (u : Nat) : Nat := u / 2 ^ 23 % 256

/-- A normal finite binary32 pattern: exponent field in `[1, 254]`. -/
def isNormalF32 (u : Nat) : Prop := 1 ≤ expField u ∧ expField u ≤ 254

/-- The exact rational value of a finite pattern (`0` on NaN/infinity). -/
def fvalQ (u : Nat) : ℚ :=
  match decodeVal u with
  | .fin d => d.val
  | _ => 0

/-- The pattern is a NaN. -/
def isNaNF32 (u : Nat) : Prop := decodeVal u = .nan

/-- The pattern is an infinity. -/
def isInfF32 (u : Nat) : Prop := ∃ s, decodeVal u = .inf s

/-- The pattern is finite. -/
def isFiniteF32 (u : Nat) : Prop := ∃ d, decodeVal u = .fin d

/-- The Estrin-factored polynomial evaluation of lines 117-122, transcribed
over exact real arithmetic (each lane operation of the block computes this
quantity up to one rounding per operation). -/
def estrin (c0 c1 c2 c3 c4 r : ℝ) : ℝ :=
  let r2 := r * r
  let p := c3 + c4 * r
  let q := c1 + c2 * r
  let q' := q + p * r2
  let p' := c0 * r
  p' + q' * r2

/-! ### Basic facts about the model -/

theorem packF32_lt (sb : Nat) (e1 : ℤ) (m1 : Nat)
    (hsb : sb = 0 ∨ sb = 2 ^ 31) (hm : m1 ≤ 2 ^ 24) :
    packF32 sb e1 m1 < 2 ^ 32 := by
  unfold packF32
  split_ifs <;> omega

theorem roundD_lt (d : Dy) : roundD d < 2 ^ 32 := by
  unfold roundD
  by_cases h0 : d.m = 0
  · simp [h0]
  · rw [if_neg h0]
    dsimp only
    apply packF32_lt
    · split_ifs <;> simp
    · split_ifs with h <;> omega

theorem encodeF_lt (v : FVal) : encodeF v < 2 ^ 32 := by
  cases v with
  | nan => norm_num [encodeF]
  | inf s => cases s <;> norm_num [encodeF]
  | fin d => exact roundD_lt d

theorem fmaF_lt (a b c : Nat) : fmaF a b c < 2 ^ 32 := encodeF_lt _

theorem mulF_lt (a b : Nat) : mulF a b < 2 ^ 32 := encodeF_lt _

theorem bslF_zero (a b : Nat) (hb : b < 2 ^ 32) : bslF 0 a b = b := by
  have h1 : (0 : Nat) ^^^ 0xffffffff = 0xffffffff := Nat.zero_xor _
  have h2 : 0xffffffff &&& b = b := by
    rw [Nat.and_comm]
    have : (0xffffffff : Nat) = 2 ^ 32 - 1 := by norm_num
    rw [this, Nat.and_pow_two_sub_one_eq_mod, Nat.mod_eq_of_lt hb]
  simp [bslF, h1, h2]

theorem bslF_ones (a b : Nat) (ha : a < 2 ^ 32) : bslF 0xffffffff a b = a := by
  have h1 : (0xffffffff : Nat) &&& a = a := by
    rw [Nat.and_comm]
    have : (0xffffffff : Nat) = 2 ^ 32 - 1 := by norm_num
    rw [this, Nat.and_pow_two_sub_one_eq_mod, Nat.mod_eq_of_lt ha]
  have h2 : (0xffffffff : Nat) ^^^ 0xffffffff = 0 := Nat.xor_self _
  simp [bslF, h1, h2]

theorem cagtF_cases (a b : Nat) : cagtF a b = 0 ∨ cagtF a b = 0xffffffff := by
  unfold cagtF
  rcases decodeVal a with _ | s | d <;> rcases decodeVal b with _ | t | d' <;>
    simp <;> split_ifs <;> simp

theorem clezF_cases (a : Nat) : clezF a = 0 ∨ clezF a = 0xffffffff := by
  unfold clezF
  rcases decodeVal a with _ | s | d <;> simp <;> first | omega | (split_ifs <;> simp)

theorem strictCmp_cases (u : Nat) : strictCmp u = 0 ∨ strictCmp u = 0xffffffff := by
  unfold strictCmp cgeU
  split_ifs <;> simp

theorem v_any_false_iff (a : V4) :
    v_any_u32 a = false ↔ a 0 = 0 ∧ a 1 = 0 ∧ a 2 = 0 ∧ a 3 = 0 := by
  simp [v_any_u32, and_assoc]

theorem v_any_eq_false_lane (a : V4) (h : v_any_u32 a = false) (i : Fin 4) :
    a i = 0 := by
  obtain ⟨h0, h1, h2, h3⟩ := (v_any_false_iff a).mp h
  fin_cases i <;> assumption

theorem bool_eq_false {b : Bool} (h : ¬(b = true)) : b = false := by
  cases b
  · rfl
  · exact absurd rfl h

theorem Dy.abslt_iff (x y : Dy) : x.abslt y = true ↔ |x.val| < |y.val| := by
  have h2 : (0 : ℚ) < 2 := by norm_num
  have habs : ∀ d : Dy, |d.val| = (d.m.natAbs : ℚ) * 2 ^ d.e := by
    intro d
    rw [Dy.val, abs_mul, Int.cast_natAbs, Int.cast_abs, abs_of_pos (zpow_pos h2 d.e)]
  unfold Dy.abslt
  rw [habs, habs]
  split_ifs with h
  · set k : ℕ := (y.e - x.e).toNat with hk
    have he : y.e = x.e + (k : ℤ) := by omega
    rw [he, zpow_add₀ (by norm_num : (2 : ℚ) ≠ 0), zpow_natCast,
      show ((y.m.natAbs : ℚ)) * ((2 : ℚ) ^ x.e * 2 ^ k)
          = ((y.m.natAbs : ℚ) * 2 ^ k) * 2 ^ x.e by ring,
      mul_lt_mul_right (zpow_pos h2 x.e)]
    simp only [decide_eq_true_eq]
    constructor
    · intro hn; exact_mod_cast hn
    · intro hq; exact_mod_cast hq
  · set k : ℕ := (x.e - y.e).toNat with hk
    have he : x.e = y.e + (k : ℤ) := by omega
    rw [he, zpow_add₀ (by norm_num : (2 : ℚ) ≠ 0), zpow_natCast,
      show ((x.m.natAbs : ℚ)) * ((2 : ℚ) ^ y.e * 2 ^ k)
          = ((x.m.natAbs : ℚ) * 2 ^ k) * 2 ^ y.e by ring,
      mul_lt_mul_right (zpow_pos h2 y.e)]
    simp only [decide_eq_true_eq]
    constructor
    · intro hn; exact_mod_cast hn
    · intro hq; exact_mod_cast hq

/-- A lane whose `|n|` does not exceed 126 also does not exceed 192:
`cmp2` of the fast special-case handler is narrower than `cmp1`. -/
theorem cagt_fast_mono (n : Nat) (h : cagtF n SpecialBoundFastPat = 0) :
    cagtF n data_scale_thresh = 0 := by
  have h126 : decodeVal SpecialBoundFastPat = .fin ⟨16515072, -17⟩ := by decide
  have h192 : decodeVal data_scale_thresh = .fin ⟨12582912, -16⟩ := by decide
  have v126 : |Dy.val ⟨16515072, -17⟩| = 126 := by
    rw [Dy.val]; norm_num
  have v192 : |Dy.val ⟨12582912, -16⟩| = 192 := by
    rw [Dy.val]; norm_num
  unfold cagtF at h ⊢
  rw [h126] at h
  rw [h192]
  generalize hd : decodeVal n = v at h ⊢
  rcases v with _ | s | d
  · rfl
  · exact absurd h (by norm_num)
  · change (if (⟨16515072, -17⟩ : Dy).abslt d = true then (4294967295 : ℕ) else 0) = 0 at h
    change (if (⟨12582912, -16⟩ : Dy).abslt d = true then (4294967295 : ℕ) else 0) = 0
    rw [if_neg]
    intro habs
    have h1 : |Dy.val ⟨(12582912 : ℤ), (-16 : ℤ)⟩| < |d.val| := (Dy.abslt_iff _ _).mp habs
    have hNle : ¬ ((⟨(16515072 : ℤ), (-17 : ℤ)⟩ : Dy).abslt d = true) := by
      intro hc
      rw [if_pos hc] at h
      exact absurd h (by norm_num)
    rw [Dy.abslt_iff] at hNle
    rw [v126] at hNle
    rw [v192] at h1
    linarith

/-- The fast-build entry point acts independently on each lane. -/
theorem v_exp10f_noexcept_lane (x : V4) (i : Fin 4) :
    v_exp10f_noexcept x i = exp10f_noexcept_lane (x i) := by
  unfold v_exp10f_noexcept exp10f_noexcept_lane
  dsimp only
  split_ifs with hany hc hc
  · unfold special_case_noexcept special_case_noexcept_lane
    dsimp only
    rw [hc, cagt_fast_mono _ hc,
      bslF_zero _ _ (fmaF_lt _ _ _), bslF_zero _ _ (fmaF_lt _ _ _)]
  · rfl
  · rfl
  · exact absurd (v_any_eq_false_lane _ (bool_eq_false hany) i) hc

/-- The strict-build entry point acts independently on each lane. -/
theorem v_exp10f_except_lane (f : Nat → Nat) (x : V4)
    (hx : ∀ j, x j < 2 ^ 32) (i : Fin 4) :
    v_exp10f_except f x i = exp10f_except_lane f (x i) := by
  unfold v_exp10f_except exp10f_except_lane special_case_except v_call_f32 maskSpecial
  dsimp only
  by_cases hany : v_any_u32 (fun j => strictCmp (x j)) = true
  · simp only [hany, if_true]
    by_cases hc : strictCmp (x i) = 0
    · rw [if_neg (show ¬(strictCmp (x i) ≠ 0) from not_not_intro hc), if_pos hc]
      rw [hc]
      rw [bslF_zero _ _ (hx i)]
    · rw [if_pos hc, if_neg hc]
  · simp only [bool_eq_false hany, Bool.false_eq_true, if_false]
    have hc : strictCmp (x i) = 0 :=
      v_any_eq_false_lane _ (bool_eq_false hany) i
    rw [if_pos hc]

/-! ### Claims -/

/-- C8: the Estrin-factored polynomial evaluation
(`r2 = r·r; p = poly[3] + poly[4]·r; q = poly[1] + poly[2]·r; q = q + p·r2;
p = poly[0]·r; result = p + q·r2`) is algebraically equal, over exact real
arithmetic, to the direct evaluation
`poly[0]·r + poly[1]·r² + poly[2]·r³ + poly[3]·r⁴ + poly[4]·r⁵`. -/
theorem claim_C8_estrin_equiv (c0 c1 c2 c3 c4 r : ℝ) :
    estrin c0 c1 c2 c3 c4 r
      = c0 * r + c1 * r ^ 2 + c2 * r ^ 3 + c3 * r ^ 4 + c4 * r ^ 5 := by
  unfold estrin
  ring

/-- C6: in the fast build, every lane with `|n| > 192` (`scale_thresh`)
returns `r2 = s1·s1`, and this candidate takes precedence over both `r1`
and `r0` in the final lane-wise selection (whatever `cmp1` is); it
saturates: `x = 200` yields `+∞` in every lane and `x = −200` yields `+0`
in every lane. -/
theorem claim_C6_scale_thresh_saturation :
    (∀ poly n e cmp1 scale : V4, ∀ i : Fin 4,
        cagtF (n i) data_scale_thresh = 0xffffffff →
        special_case_noexcept poly n e cmp1 scale i
          = mulF (spc_s1 (n i)) (spc_s1 (n i)))
    ∧ v_exp10f_noexcept (fun _ => 0x43480000) = (fun _ => 0x7f800000)
    ∧ v_exp10f_noexcept (fun _ => 0xc3480000) = (fun _ => 0) := by
  refine ⟨?_, by decide, by decide⟩
  intro poly n e cmp1 scale i h2
  unfold special_case_noexcept special_case_noexcept_lane
  dsimp only
  rw [h2, bslF_ones _ _ (mulF_lt _ _)]

/-- Witness for C6: the lane `n = 200.0f` satisfies the `cmp2` condition
and the handler returns `s1·s1` there. -/
theorem claim_C6_witness :
    cagtF 0x43480000 data_scale_thresh = 0xffffffff ∧
    special_case_noexcept (fun _ => 0) (fun _ => 0x43480000) (fun _ => 0)
        (fun _ => 0) (fun _ => 0) 0
      = mulF (spc_s1 0x43480000) (spc_s1 0x43480000) :=
  ⟨by decide, claim_C6_scale_thresh_saturation.1 _ _ _ _ _ 0 (by decide)⟩

/-- C7: each output lane depends only on the corresponding input lane, in
both builds; and in the fast build, for a lane not classified special,
going through the special-case handler yields the very value
`fma (poly, scale, scale)` of the ordinary path. -/
theorem claim_C7_lane_independence :
    (∀ x x' : V4, ∀ i : Fin 4, x i = x' i →
        v_exp10f_noexcept x i = v_exp10f_noexcept x' i)
    ∧ (∀ f : Nat → Nat, ∀ x x' : V4,
        (∀ j, x j < 2 ^ 32) → (∀ j, x' j < 2 ^ 32) →
        ∀ i : Fin 4, x i = x' i →
        v_exp10f_except f x i = v_exp10f_except f x' i)
    ∧ (∀ poly n e cmp1 scale : V4, ∀ i : Fin 4,
        cmp1 i = cagtF (n i) SpecialBoundFastPat → cmp1 i = 0 →
        special_case_noexcept poly n e cmp1 scale i
          = fmaF (scale i) (poly i) (scale i)) := by
  refine ⟨?_, ?_, ?_⟩
  · intro x x' i h
    rw [v_exp10f_noexcept_lane, v_exp10f_noexcept_lane, h]
  · intro f x x' hx hx' i h
    rw [v_exp10f_except_lane f x hx i, v_exp10f_except_lane f x' hx' i, h]
  · intro poly n e cmp1 scale i hdef h0
    have hc : cagtF (n i) SpecialBoundFastPat = 0 := hdef.symm.trans h0
    unfold special_case_noexcept special_case_noexcept_lane
    dsimp only
    rw [h0, cagt_fast_mono _ hc,
      bslF_zero _ _ (fmaF_lt _ _ _), bslF_zero _ _ (fmaF_lt _ _ _)]

/-- Witness for C7: lane 0 of the strict build gives the same value on two
batches agreeing in lane 0, although the second batch takes the
special-case path because its other lanes hold `40.0f`. -/
theorem claim_C7_witness :
    v_exp10f_except (fun _ => 7) (fun _ => 0x3f800000) 0
      = v_exp10f_except (fun _ => 7)
          (fun j => if j.val = 0 then 0x3f800000 else 0x42200000) 0 :=
  claim_C7_lane_independence.2.1 (fun _ => 7) _ _
    (fun j => by fin_cases j <;> norm_num)
    (fun j => by fin_cases j <;> norm_num)
    0 (by norm_num)

/-- C3: in the strict build, every flagged lane of the mask vector is
replaced by `1.0f` (unflagged lanes keep their input), and the function
returns the scalar `exp10f` of the lane's original input on flagged lanes
and the vector-path value `fma (poly, scale, scale)` of the lane's own
input on unflagged lanes. -/
theorem claim_C3_strict_mask_and_fallback (f : Nat → Nat) (x : V4)
    (hx : ∀ j, x j < 2 ^ 32) (i : Fin 4) :
    maskSpecial x i = (if strictCmp (x i) = 0 then x i else 0x3f800000)
    ∧ v_exp10f_except f x i
      = (if strictCmp (x i) = 0
         then fmaF (lane_scale (x i)) (lane_poly (x i)) (lane_scale (x i))
         else f (x i)) := by
  constructor
  · unfold maskSpecial
    rcases strictCmp_cases (x i) with h | h
    · rw [h, bslF_zero _ _ (hx i), if_pos rfl]
    · rw [h, bslF_ones _ _ (by norm_num), if_neg (by norm_num)]
  · rw [v_exp10f_except_lane f x hx i]
    rfl

/-- Witness for C3: `x = 40.0f` is flagged (`40 ≥ 38`); the lane is masked
to `1.0f` and the result is the oracle's value on the original input. -/
theorem claim_C3_witness :
    maskSpecial (fun _ => 0x42200000) 0 = 0x3f800000 ∧
    v_exp10f_except (fun u => u + 1) (fun _ => 0x42200000) 0 = 0x42200001 := by
  have h := claim_C3_strict_mask_and_fallback (fun u => u + 1)
    (fun _ => 0x42200000) (fun j => by norm_num) 0
  exact ⟨h.1.trans (by decide), h.2.trans (by decide)⟩

/-- Scaled absolute value of a finite pattern: `|value| = sval u / 2^150`. -/
def sval (u : Nat) : ℕ :=
  if expField u = 0 then 2 * (u % 2 ^ 23)
  else (2 ^ 23 + u % 2 ^ 23) * 2 ^ expField u

theorem decode_eq_of_ef255 (u : Nat) (h : expField u = 255) :
    decodeVal u
      = (if u % 2 ^ 23 = 0 then FVal.inf (u / 2 ^ 31 % 2 = 1) else .nan) := by
  unfold expField at h
  unfold decodeVal
  dsimp only
  rw [if_pos h]

theorem decode_eq_of_ef0 (u : Nat) (h : expField u = 0) :
    decodeVal u
      = .fin ⟨(if u / 2 ^ 31 % 2 = 1 then (-1 : ℤ) else 1) * (u % 2 ^ 23 : ℕ),
              -149⟩ := by
  unfold expField at h
  unfold decodeVal
  dsimp only
  rw [if_neg (by omega), if_pos h]
  simp only [decide_eq_true_eq]

theorem decode_eq_normal (u : Nat) (h1 : expField u ≠ 255) (h0 : expField u ≠ 0) :
    decodeVal u
      = .fin ⟨(if u / 2 ^ 31 % 2 = 1 then (-1 : ℤ) else 1)
              * ((2 ^ 23 + u % 2 ^ 23 : ℕ) : ℤ),
              (expField u : ℤ) - 150⟩ := by
  unfold expField at h1 h0 ⊢
  unfold decodeVal
  dsimp only
  rw [if_neg h1, if_neg h0]
  simp only [decide_eq_true_eq]

theorem finite_absval (u : Nat) (hef : expField u ≠ 255) :
    ∃ d, decodeVal u = .fin d ∧ |d.val| = (sval u : ℚ) / 2 ^ 150 := by
  have h2 : (0 : ℚ) < 2 := by norm_num
  have habs1 : ∀ m : ℕ,
      |((((if u / 2 ^ 31 % 2 = 1 then (-1 : ℤ) else 1) * (m : ℕ)) : ℤ) : ℚ)|
        = (m : ℚ) := by
    intro m
    split_ifs <;> push_cast <;> simp [abs_mul]
  by_cases h0 : expField u = 0
  · refine ⟨_, decode_eq_of_ef0 u h0, ?_⟩
    rw [Dy.val]
    dsimp only
    rw [abs_mul, abs_of_pos (zpow_pos h2 _), habs1]
    rw [sval, if_pos h0]
    rw [show ((-149 : ℤ)) = 1 - 150 by norm_num,
      zpow_sub₀ (by norm_num : (2 : ℚ) ≠ 0), zpow_one,
      show ((150 : ℤ)) = ((150 : ℕ) : ℤ) by norm_num, zpow_natCast]
    push_cast
    ring
  · refine ⟨_, decode_eq_normal u hef h0, ?_⟩
    rw [Dy.val]
    dsimp only
    rw [abs_mul, abs_of_pos (zpow_pos h2 _), habs1]
    rw [sval, if_neg h0]
    rw [show ((expField u : ℤ) - 150) = ((expField u : ℕ) : ℤ) - ((150 : ℕ) : ℤ)
        by norm_num,
      zpow_sub₀ (by norm_num : (2 : ℚ) ≠ 0), zpow_natCast, zpow_natCast]
    push_cast
    ring

theorem sval_tiny_iff (u : Nat) (hu : u < 2 ^ 32) (hef : expField u ≠ 255) :
    (sval u < 2 ^ 87 ↔ u % 2 ^ 31 < 0x20000000) := by
  have hefd : expField u = u % 2 ^ 31 / 2 ^ 23 := by unfold expField; omega
  unfold sval
  rw [hefd, show u % 2 ^ 23 = u % 2 ^ 31 % 2 ^ 23 by omega]
  set a := u % 2 ^ 31 with ha
  have haub : a < 2 ^ 31 := by omega
  by_cases h0 : a / 2 ^ 23 = 0
  · rw [if_pos h0]
    constructor
    · intro _; omega
    · intro _; omega
  · rw [if_neg h0]
    constructor
    · intro hlt
      by_contra hge
      push_neg at hge
      have hef64 : 64 ≤ a / 2 ^ 23 := by omega
      have hkey : 2 ^ 23 * 2 ^ 64 ≤ (2 ^ 23 + a % 2 ^ 23) * 2 ^ (a / 2 ^ 23) :=
        Nat.mul_le_mul (by omega) (Nat.pow_le_pow_right (by norm_num) hef64)
      norm_num at hkey hlt
      omega
    · intro hlt
      have hef63 : a / 2 ^ 23 ≤ 63 := by omega
      have hkey : (2 ^ 23 + a % 2 ^ 23) * 2 ^ (a / 2 ^ 23)
          ≤ (2 ^ 24 - 1) * 2 ^ 63 :=
        Nat.mul_le_mul (by omega) (Nat.pow_le_pow_right (by norm_num) hef63)
      norm_num at hkey ⊢
      omega

theorem sval_big_iff (u : Nat) (hu : u < 2 ^ 32) (hef : expField u ≠ 255) :
    (19 * 2 ^ 151 ≤ sval u ↔ 0x42180000 ≤ u % 2 ^ 31) := by
  have hefd : expField u = u % 2 ^ 31 / 2 ^ 23 := by unfold expField; omega
  have hef255 : u % 2 ^ 31 / 2 ^ 23 ≠ 255 := by rw [← hefd]; exact hef
  unfold sval
  rw [hefd, show u % 2 ^ 23 = u % 2 ^ 31 % 2 ^ 23 by omega]
  set a := u % 2 ^ 31 with ha
  have haub : a < 2 ^ 31 := by omega
  by_cases h0 : a / 2 ^ 23 = 0
  · rw [if_pos h0]
    constructor
    · intro hle; norm_num at hle; omega
    · intro hge; omega
  · rw [if_neg h0]
    constructor
    · intro hle
      by_contra hlt
      push_neg at hlt
      rcases Nat.lt_or_ge (a / 2 ^ 23) 132 with hc | hc
      · have hkey : (2 ^ 23 + a % 2 ^ 23) * 2 ^ (a / 2 ^ 23)
            ≤ (2 ^ 24 - 1) * 2 ^ 131 :=
          Nat.mul_le_mul (by omega) (Nat.pow_le_pow_right (by norm_num) (by omega))
        norm_num at hkey hle
        omega
      · have hc132 : a / 2 ^ 23 = 132 := by omega
        have hmant : a % 2 ^ 23 < 0x180000 := by omega
        rw [hc132] at hle
        have hkey : (2 ^ 23 + a % 2 ^ 23) * 2 ^ 132 < (2 ^ 23 + 0x180000) * 2 ^ 132 :=
          (Nat.mul_lt_mul_right (by norm_num : (0 : ℕ) < 2 ^ 132)).mpr (by omega)
        norm_num at hkey hle
        omega
    · intro hge
      rcases Nat.lt_or_ge (a / 2 ^ 23) 133 with hc | hc
      · have hc132 : a / 2 ^ 23 = 132 := by omega
        have hmant : 0x180000 ≤ a % 2 ^ 23 := by omega
        rw [hc132]
        have hkey : (2 ^ 23 + 0x180000) * 2 ^ 132 ≤ (2 ^ 23 + a % 2 ^ 23) * 2 ^ 132 :=
          Nat.mul_le_mul_right _ (by omega)
        norm_num at hkey ⊢
        omega
      · have hkey : 2 ^ 23 * 2 ^ 133 ≤ (2 ^ 23 + a % 2 ^ 23) * 2 ^ (a / 2 ^ 23) :=
          Nat.mul_le_mul (by omega) (Nat.pow_le_pow_right (by norm_num) hc)
        norm_num at hkey ⊢
        omega

theorem strictCmp_eq_ones_iff (u : Nat) (hu : u < 2 ^ 32) :
    strictCmp u = 0xffffffff
      ↔ (u % 2 ^ 31 < 0x20000000 ∨ 0x42180000 ≤ u % 2 ^ 31) := by
  unfold strictCmp cgeU subU andU TinyBound Thres
  have hand : u &&& 0x7fffffff = u % 2 ^ 31 := by
    rw [show (0x7fffffff : Nat) = 2 ^ 31 - 1 by norm_num,
      Nat.and_pow_two_sub_one_eq_mod]
  rw [hand]
  split_ifs with h
  · exact iff_of_true rfl (by omega)
  · exact iff_of_false (by norm_num) (by omega)

theorem fvalQ_eq_of_fin {u : Nat} {d : Dy} (hd : decodeVal u = .fin d) :
    fvalQ u = d.val := by
  unfold fvalQ
  rw [hd]

/-- C2: in the strict build, a lane is classified special iff the unsigned
32-bit difference `(asuint(x) & 0x7fffffff) − 0x20000000` is at least
`0x22180000`, which holds exactly when `|x| < 2^-63`, or `|x| ≥ 38.0`, or
`x` is infinite or NaN; no other lane is flagged (the mask is all-ones or
all-zeros). -/
theorem claim_C2_strict_classification (u : Nat) (hu : u < 2 ^ 32) :
    (strictCmp u = 0 ∨ strictCmp u = 0xffffffff)
    ∧ (strictCmp u = 0xffffffff ↔
        (isNaNF32 u ∨ isInfF32 u ∨
          (isFiniteF32 u ∧ (|fvalQ u| < (2 : ℚ) ^ (-63 : ℤ) ∨ 38 ≤ |fvalQ u|)))) := by
  refine ⟨strictCmp_cases u, ?_⟩
  rw [strictCmp_eq_ones_iff u hu]
  by_cases hef : expField u = 255
  · have hbig : 0x42180000 ≤ u % 2 ^ 31 := by
      unfold expField at hef; omega
    apply iff_of_true (Or.inr hbig)
    have hd := decode_eq_of_ef255 u hef
    by_cases hm : u % 2 ^ 23 = 0
    · rw [if_pos hm] at hd
      exact Or.inr (Or.inl ⟨_, hd⟩)
    · rw [if_neg hm] at hd
      exact Or.inl hd
  · obtain ⟨d, hd, habs⟩ := finite_absval u hef
    have hq1 : (|fvalQ u| < (2 : ℚ) ^ (-63 : ℤ)) ↔ sval u < 2 ^ 87 := by
      rw [fvalQ_eq_of_fin hd, habs,
        div_lt_iff (by positivity : (0 : ℚ) < 2 ^ 150),
        show (2 : ℚ) ^ (-63 : ℤ) * 2 ^ 150 = ((2 ^ 87 : ℕ) : ℚ) by
          rw [show ((-63 : ℤ)) = ((87 : ℕ) : ℤ) - ((150 : ℕ) : ℤ) by norm_num,
            zpow_sub₀ (by norm_num : (2 : ℚ) ≠ 0), zpow_natCast, zpow_natCast]
          push_cast
          field_simp
          norm_num]
      exact Nat.cast_lt
    have hq2 : (38 ≤ |fvalQ u|) ↔ 19 * 2 ^ 151 ≤ sval u := by
      rw [fvalQ_eq_of_fin hd, habs,
        le_div_iff (by positivity : (0 : ℚ) < 2 ^ 150),
        show (38 : ℚ) * 2 ^ 150 = ((19 * 2 ^ 151 : ℕ) : ℚ) by push_cast; ring]
      exact Nat.cast_le
    constructor
    · intro hbits
      refine Or.inr (Or.inr ⟨⟨d, hd⟩, ?_⟩)
      rw [hq1, hq2, sval_tiny_iff u hu hef, sval_big_iff u hu hef]
      exact hbits
    · rintro (hnan | ⟨s, hinf⟩ | ⟨-, hP⟩)
      · unfold isNaNF32 at hnan
        cases hd.symm.trans hnan
      · cases hd.symm.trans hinf
      · rw [hq1, hq2, sval_tiny_iff u hu hef, sval_big_iff u hu hef] at hP
        exact hP

/-- Witness for C2: `x = 38.0f` (pattern `0x42180000`, `|x| ≥ 38`) is
classified special. -/
theorem claim_C2_witness : strictCmp 0x42180000 = 0xffffffff := by
  apply ((claim_C2_strict_classification 0x42180000 (by norm_num)).2).mpr
  refine Or.inr (Or.inr ⟨⟨⟨9961472, -18⟩, by decide⟩, Or.inr ?_⟩)
  rw [fvalQ_eq_of_fin (show decodeVal 0x42180000 = .fin ⟨9961472, -18⟩ by decide)]
  rw [Dy.val]
  rw [abs_of_pos (by positivity)]
  norm_num

theorem decode_pow_pat (k : ℕ) (hk1 : 1 ≤ k) (hk2 : k ≤ 254) :
    decodeVal (k * 2 ^ 23) = .fin ⟨8388608, (k : ℤ) - 150⟩ := by
  have hef : expField (k * 2 ^ 23) = k := by unfold expField; omega
  rw [decode_eq_normal _ (by rw [hef]; omega) (by rw [hef]; omega), hef]
  rw [show (k * 2 ^ 23) / 2 ^ 31 % 2 = 0 from by omega,
    show (k * 2 ^ 23) % 2 ^ 23 = 0 from by omega]
  norm_num

theorem val_pow_mul (a b : ℤ) :
    Dy.val ⟨8388608, a⟩ * Dy.val ⟨8388608, b⟩ = (2 : ℚ) ^ (46 + a + b) := by
  have h2 : (2 : ℚ) ≠ 0 := by norm_num
  rw [Dy.val, Dy.val]
  dsimp only
  rw [show ((8388608 : ℤ) : ℚ) = (2 : ℚ) ^ (23 : ℤ) by norm_num]
  rw [mul_mul_mul_comm, ← zpow_add₀ h2, ← zpow_add₀ h2, ← zpow_add₀ h2]
  exact congrArg (fun t : ℤ => (2 : ℚ) ^ t) (by ring)

/-- C5: in the fast-build special-case handler, for a lane whose `n` is an
integer `m` with `126 < |m| ≤ 192` and whose `e` argument is `m` shifted
into the exponent-field position, the factors
`s1 = bits (b + 0x7f000000)` and `s2 = bits (e − b)`
(where `b = 0x82000000` iff `n ≤ 0`, else `b = 0`) are both finite normal
numbers and their exact product is `2^m`, so
`r1 = s1·fma (poly, s2, s2)` evaluates `2^m·(1 + poly)` without exponent
overflow or underflow in either factor. -/
theorem claim_C5_twostep_scale (m : ℤ) (npat e : Nat) (d : Dy)
    (hd : decodeVal npat = .fin d) (hv : d.val = (m : ℚ))
    (h1 : 126 < |m|) (h2 : |m| ≤ 192)
    (he : e = (m % 512).toNat * 2 ^ 23) :
    isNormalF32 (spc_s1 npat) ∧ isNormalF32 (spc_s2 npat e)
    ∧ fvalQ (spc_s1 npat) * fvalQ (spc_s2 npat e) = (2 : ℚ) ^ m := by
  have hpow : (0 : ℚ) < 2 ^ d.e := zpow_pos (by norm_num) _
  have hsgn : d.m ≤ 0 ↔ m ≤ 0 := by
    constructor
    · intro h
      have hval : ((m : ℚ)) ≤ 0 := by
        rw [← hv, Dy.val]
        exact mul_nonpos_of_nonpos_of_nonneg (Int.cast_nonpos.mpr h) (le_of_lt hpow)
      exact_mod_cast hval
    · intro h
      by_contra hpos
      push_neg at hpos
      have hgt : (0 : ℚ) < d.val := by
        rw [Dy.val]
        exact mul_pos (by exact_mod_cast hpos) hpow
      rw [hv] at hgt
      have : (0 : ℤ) < m := by exact_mod_cast hgt
      omega
  rcases abs_cases m with ⟨habs, hm0⟩ | ⟨habs, hm0⟩
  · -- positive case: 127 ≤ m ≤ 192, so b = 0 and s1 = 2^127
    rw [habs] at h1 h2
    have hnot : ¬ d.m ≤ 0 := fun hh => absurd (hsgn.mp hh) (by omega)
    have hclez : clezF npat = 0 := by
      unfold clezF
      rw [hd]
      change (if d.m ≤ 0 then (0xffffffff : ℕ) else 0) = 0
      rw [if_neg hnot]
    have hs1 : spc_s1 npat = 0x7f000000 := by
      unfold spc_s1 spc_b
      rw [hclez]
      decide
    have hs2 : spc_s2 npat e = m.toNat * 2 ^ 23 := by
      unfold spc_s2 spc_b
      rw [hclez, he, show andU 0 SpecialOffset = 0 from by decide]
      unfold subU
      omega
    have hdec2 := decode_pow_pat m.toNat (by omega) (by omega)
    refine ⟨by rw [hs1]; unfold isNormalF32 expField; omega, ?_, ?_⟩
    · rw [hs2]
      unfold isNormalF32 expField
      omega
    · rw [hs1, hs2,
        fvalQ_eq_of_fin (show decodeVal 0x7f000000 = .fin ⟨8388608, 104⟩ from by decide),
        fvalQ_eq_of_fin hdec2, val_pow_mul]
      exact congrArg (fun t : ℤ => (2 : ℚ) ^ t) (by omega)
  · -- negative case: −192 ≤ m ≤ −127, so b = 0x82000000 and s1 = 2^−125
    rw [habs] at h1 h2
    have hle : d.m ≤ 0 := hsgn.mpr (by omega)
    have hclez : clezF npat = 0xffffffff := by
      unfold clezF
      rw [hd]
      change (if d.m ≤ 0 then (0xffffffff : ℕ) else 0) = 0xffffffff
      rw [if_pos hle]
    have hs1 : spc_s1 npat = 0x01000000 := by
      unfold spc_s1 spc_b
      rw [hclez]
      decide
    have hs2 : spc_s2 npat e = (m + 252).toNat * 2 ^ 23 := by
      unfold spc_s2 spc_b
      rw [hclez, he, show andU 0xffffffff SpecialOffset = 0x82000000 from by decide]
      unfold subU
      omega
    have hdec2 := decode_pow_pat (m + 252).toNat (by omega) (by omega)
    refine ⟨by rw [hs1]; unfold isNormalF32 expField; omega, ?_, ?_⟩
    · rw [hs2]
      unfold isNormalF32 expField
      omega
    · rw [hs1, hs2,
        fvalQ_eq_of_fin (show decodeVal 0x01000000 = .fin ⟨8388608, -148⟩ from by decide),
        fvalQ_eq_of_fin hdec2, val_pow_mul]
      exact congrArg (fun t : ℤ => (2 : ℚ) ^ t) (by omega)

/-- Witness for C5: `n = 150.0f` (pattern `0x43160000`, value the integer
150) with `e = 150·2^23`: `s1`, `s2` are normal and `s1·s2 = 2^150`. -/
theorem claim_C5_witness :
    isNormalF32 (spc_s1 0x43160000)
    ∧ isNormalF32 (spc_s2 0x43160000 1258291200)
    ∧ fvalQ (spc_s1 0x43160000) * fvalQ (spc_s2 0x43160000 1258291200)
        = (2 : ℚ) ^ (150 : ℤ) :=
  claim_C5_twostep_scale 150 0x43160000 1258291200 ⟨9830400, -16⟩ (by decide)
    (by rw [Dy.val]; norm_num) (by norm_num) (by norm_num) (by decide)

theorem lane_n_congr (x x' : Nat) (h : decodeVal x = decodeVal x') :
    lane_n x = lane_n x' := by
  unfold lane_n lane_z subF fmaF
  rw [h]

/-- The fast-build lane function depends on its input only through the
decoded value (every use of `x` in the body goes through `decodeVal`). -/
theorem exp10f_noexcept_lane_congr (x x' : Nat)
    (h : decodeVal x = decodeVal x') :
    exp10f_noexcept_lane x = exp10f_noexcept_lane x' := by
  unfold exp10f_noexcept_lane special_case_noexcept_lane spc_s1 spc_s2 spc_b
    lane_poly lane_r lane_scale lane_e lane_n lane_z fmaF fmsF mulF subF clezF cagtF
  rw [h]

theorem decode_nonfinite_ef (u : Nat)
    (h : decodeVal u = .nan ∨ ∃ s, decodeVal u = .inf s) :
    expField u = 255 := by
  by_contra hne
  obtain ⟨d, hd, -⟩ := finite_absval u hne
  rcases h with hn | ⟨s, hi⟩
  · cases hd.symm.trans hn
  · cases hd.symm.trans hi

/-- Counterexample to C10 as stated: a NaN input lane is **not** flagged by
the fast build — the absolute comparison `vcagtq_f32 (n, SpecialBound)` is
false on NaN, so the lane is resolved through the ordinary path
`fma (poly, scale, scale)`, not through the saturating `r2` branch. -/
theorem claim_C10_counterexample :
    decodeVal 0x7fc00000 = FVal.nan
    ∧ cagtF (lane_n 0x7fc00000) SpecialBoundFastPat = 0
    ∧ v_exp10f_noexcept (fun _ => 0x7fc00000) 0
        = fmaF (lane_scale 0x7fc00000) (lane_poly 0x7fc00000)
            (lane_scale 0x7fc00000) :=
  ⟨by decide, by decide, by decide⟩

/-- C10 (amended): for every lane with a non-finite input the function
returns with no error path — NaN yields NaN, `+∞` yields `+∞`, `−∞` yields
`+0` — in both builds.  In the fast build the *infinite* lanes are flagged
and resolved through the saturating `r2 = s1·s1` branch, while NaN lanes
are *not* flagged (the absolute compare is false on NaN) and propagate NaN
through the ordinary path; in the strict build every non-finite lane is
flagged and delegated to the scalar `exp10f`. -/
theorem claim_C10_nonfinite_amended :
    (∀ x : V4, ∀ i : Fin 4, x i = 0x7f800000 →
        cagtF (lane_n (x i)) SpecialBoundFastPat = 0xffffffff
        ∧ v_exp10f_noexcept x i
            = mulF (spc_s1 (lane_n (x i))) (spc_s1 (lane_n (x i)))
        ∧ v_exp10f_noexcept x i = 0x7f800000)
    ∧ (∀ x : V4, ∀ i : Fin 4, x i = 0xff800000 →
        cagtF (lane_n (x i)) SpecialBoundFastPat = 0xffffffff
        ∧ v_exp10f_noexcept x i
            = mulF (spc_s1 (lane_n (x i))) (spc_s1 (lane_n (x i)))
        ∧ v_exp10f_noexcept x i = 0)
    ∧ (∀ x : V4, ∀ i : Fin 4, decodeVal (x i) = .nan →
        cagtF (lane_n (x i)) SpecialBoundFastPat = 0
        ∧ decodeVal (v_exp10f_noexcept x i) = .nan)
    ∧ (∀ f : Nat → Nat, ∀ x : V4, (∀ j, x j < 2 ^ 32) → ∀ i : Fin 4,
        (decodeVal (x i) = .nan ∨ ∃ s, decodeVal (x i) = .inf s) →
        strictCmp (x i) = 0xffffffff ∧ v_exp10f_except f x i = f (x i)) := by
  refine ⟨?_, ?_, ?_, ?_⟩
  · intro x i hx
    refine ⟨by rw [hx]; decide, ?_, ?_⟩
    · rw [v_exp10f_noexcept_lane, hx]
      decide
    · rw [v_exp10f_noexcept_lane, hx]
      decide
  · intro x i hx
    refine ⟨by rw [hx]; decide, ?_, ?_⟩
    · rw [v_exp10f_noexcept_lane, hx]
      decide
    · rw [v_exp10f_noexcept_lane, hx]
      decide
  · intro x i hn
    have hcan : decodeVal (x i) = decodeVal 0x7fc00000 := by
      rw [hn]; decide
    constructor
    · rw [lane_n_congr _ 0x7fc00000 hcan]
      decide
    · rw [v_exp10f_noexcept_lane, exp10f_noexcept_lane_congr _ 0x7fc00000 hcan]
      decide
  · intro f x hx i hnf
    have hef := decode_nonfinite_ef _ hnf
    have hcmp : strictCmp (x i) = 0xffffffff := by
      rw [strictCmp_eq_ones_iff _ (hx i)]
      refine Or.inr ?_
      unfold expField at hef
      omega
    refine ⟨hcmp, ?_⟩
    rw [v_exp10f_except_lane f x hx i]
    unfold exp10f_except_lane
    rw [hcmp]
    norm_num

/-- Witness for the amended C10 at the three non-finite inputs. -/
theorem claim_C10_witness :
    v_exp10f_noexcept (fun _ => 0x7f800000) 0 = 0x7f800000
    ∧ v_exp10f_noexcept (fun _ => 0xff800000) 0 = 0
    ∧ decodeVal (v_exp10f_noexcept (fun _ => 0x7fc00000) 0) = FVal.nan
    ∧ v_exp10f_except (fun _ => 0xabcd) (fun _ => 0x7f800000) 0 = 0xabcd :=
  ⟨(claim_C10_nonfinite_amended.1 _ 0 rfl).2.2,
   (claim_C10_nonfinite_amended.2.1 _ 0 rfl).2.2,
   (claim_C10_nonfinite_amended.2.2.1 _ 0 (by decide)).2,
   (claim_C10_nonfinite_amended.2.2.2 _ _ (fun j => by norm_num) 0
     (Or.inr ⟨false, by decide⟩)).2⟩

theorem log_two_near :
    |Real.log 2 - (320456389684287015693862627866615457 : ℝ)
        / 462320844218702047886914903345201152|
      ≤ 1 / 36028797018963968 := by
  have hx : |(1/2 : ℝ)| < 1 := by rw [abs_of_pos] <;> norm_num
  have h1 := Real.abs_log_sub_add_sum_range_le hx 55
  rw [show (1:ℝ) - 1/2 = (2:ℝ)⁻¹ by norm_num, Real.log_inv] at h1
  have hsum : (∑ i ∈ Finset.range 55, (1/2 : ℝ) ^ (i + 1) / ((i : ℝ) + 1))
      = (320456389684287015693862627866615457 : ℝ)
          / 462320844218702047886914903345201152 := by
    norm_num [Finset.sum_range_succ]
  rw [hsum] at h1
  have h2 : |(1/2 : ℝ)| ^ 56 / (1 - |(1/2 : ℝ)|) = 1 / 36028797018963968 := by
    rw [abs_of_pos (by norm_num : (0:ℝ) < 1/2)]
    norm_num
  rw [h2] at h1
  rw [abs_sub_comm, sub_eq_add_neg]
  exact h1

theorem log_fivefourth_near :
    |Real.log (5/4) - (258957612911637007988357 : ℝ) / 1160497856140136718750000|
      ≤ 1 / 47683715820312500 := by
  have hx : |(1/5 : ℝ)| < 1 := by rw [abs_of_pos] <;> norm_num
  have h1 := Real.abs_log_sub_add_sum_range_le hx 23
  rw [show (1:ℝ) - 1/5 = ((5:ℝ)/4)⁻¹ by norm_num, Real.log_inv] at h1
  have hsum : (∑ i ∈ Finset.range 23, (1/5 : ℝ) ^ (i + 1) / ((i : ℝ) + 1))
      = (258957612911637007988357 : ℝ) / 1160497856140136718750000 := by
    norm_num [Finset.sum_range_succ]
  rw [hsum] at h1
  have h2 : |(1/5 : ℝ)| ^ 24 / (1 - |(1/5 : ℝ)|) = 1 / 47683715820312500 := by
    rw [abs_of_pos (by norm_num : (0:ℝ) < 1/5)]
    norm_num
  rw [h2] at h1
  rw [abs_sub_comm, sub_eq_add_neg]
  exact h1

theorem log_ten_eq : Real.log 10 = 3 * Real.log 2 + Real.log (5/4) := by
  rw [show (10:ℝ) = 2 ^ 3 * (5/4) by norm_num,
    Real.log_mul (by norm_num) (by norm_num), Real.log_pow]
  push_cast
  ring

theorem logb_two_ten_eq :
    Real.logb 2 10 = 3 + Real.log (5/4) / Real.log 2 := by
  have hln2 : Real.log 2 ≠ 0 := (Real.log_pos (by norm_num)).ne'
  rw [Real.logb, log_ten_eq]
  field_simp

theorem logb_ten_two_eq :
    Real.logb 10 2 = Real.log 2 / (3 * Real.log 2 + Real.log (5/4)) := by
  rw [Real.logb, log_ten_eq]

theorem logb_two_ten_bounds :
    |(13933176 : ℝ) / 4194304 - Real.logb 2 10| < 2 ^ (-23 : ℤ)
    ∧ 3 < Real.logb 2 10 := by
  have hB := log_two_near
  have hA := log_fivefourth_near
  rw [abs_le] at hB hA
  obtain ⟨hB1, hB2⟩ := hB
  obtain ⟨hA1, hA2⟩ := hA
  have hBpos : (0:ℝ) < Real.log 2 := by
    have : (0:ℝ) < 320456389684287015693862627866615457
        / 462320844218702047886914903345201152 - 1 / 36028797018963968 := by norm_num
    linarith
  have hApos : (0:ℝ) < Real.log (5/4) := by
    have : (0:ℝ) < 258957612911637007988357 / 1160497856140136718750000
        - 1 / 47683715820312500 := by norm_num
    linarith
  have hup : Real.log (5/4) / Real.log 2
      ≤ (258957612911637007988357 / 1160497856140136718750000 + 1 / 47683715820312500)
        / (320456389684287015693862627866615457 / 462320844218702047886914903345201152
           - 1 / 36028797018963968) := by
    apply div_le_div (by norm_num) (by linarith) (by norm_num) (by linarith)
  have hlo : (258957612911637007988357 / 1160497856140136718750000 - 1 / 47683715820312500)
        / (320456389684287015693862627866615457 / 462320844218702047886914903345201152
           + 1 / 36028797018963968)
      ≤ Real.log (5/4) / Real.log 2 := by
    apply div_le_div (le_of_lt hApos) (by linarith) hBpos (by linarith)
  rw [logb_two_ten_eq]
  have h23 : (2:ℝ) ^ (-23 : ℤ) = 1 / 8388608 := by norm_num
  refine ⟨?_, ?_⟩
  · rw [h23, abs_lt]
    constructor
    · have hnum : -(1/8388608 : ℝ) < 13933176 / 4194304
          - (3 + (258957612911637007988357 / 1160497856140136718750000
                + 1 / 47683715820312500)
            / (320456389684287015693862627866615457
                / 462320844218702047886914903345201152 - 1 / 36028797018963968)) := by
        norm_num
      linarith
    · have hnum : (13933176 : ℝ) / 4194304
          - (3 + (258957612911637007988357 / 1160497856140136718750000
                - 1 / 47683715820312500)
            / (320456389684287015693862627866615457
                / 462320844218702047886914903345201152 + 1 / 36028797018963968))
          < 1/8388608 := by
        norm_num
      linarith
  · have : (0:ℝ) < Real.log (5/4) / Real.log 2 := div_pos hApos hBpos
    linarith

theorem hi_lo_sum_bound :
    |(10591551377341 : ℝ) / 35184372088832 - Real.logb 10 2| < 2 ^ (-48 : ℤ) := by
  have hB := log_two_near
  have hA := log_fivefourth_near
  rw [abs_le] at hB hA
  obtain ⟨hB1, hB2⟩ := hB
  obtain ⟨hA1, hA2⟩ := hA
  have hBlo : (320456389684287015693862627866615457 : ℝ)
      / 462320844218702047886914903345201152 - 1 / 36028797018963968 ≤ Real.log 2 := by
    linarith
  have hBhi : Real.log 2 ≤ (320456389684287015693862627866615457 : ℝ)
      / 462320844218702047886914903345201152 + 1 / 36028797018963968 := by
    linarith
  have hAlo : (258957612911637007988357 : ℝ) / 1160497856140136718750000
      - 1 / 47683715820312500 ≤ Real.log (5/4) := by
    linarith
  have hAhi : Real.log (5/4) ≤ (258957612911637007988357 : ℝ)
      / 1160497856140136718750000 + 1 / 47683715820312500 := by
    linarith
  have hBpos : (0:ℝ) < Real.log 2 := by
    have h0 : (0:ℝ) < 320456389684287015693862627866615457
        / 462320844218702047886914903345201152 - 1 / 36028797018963968 := by norm_num
    linarith
  have hApos : (0:ℝ) < Real.log (5/4) := by
    have h0 : (0:ℝ) < 258957612911637007988357 / 1160497856140136718750000
        - 1 / 47683715820312500 := by norm_num
    linarith
  have hDpos : (0:ℝ) < 3 * Real.log 2 + Real.log (5/4) := by linarith
  have hglo : ((320456389684287015693862627866615457 : ℝ)
        / 462320844218702047886914903345201152 - 1 / 36028797018963968)
      / (3 * (320456389684287015693862627866615457
            / 462320844218702047886914903345201152 - 1 / 36028797018963968)
         + (258957612911637007988357 / 1160497856140136718750000
            + 1 / 47683715820312500))
      ≤ Real.log 2 / (3 * Real.log 2 + Real.log (5/4)) := by
    rw [div_le_div_iff (by norm_num) hDpos]
    nlinarith [mul_le_mul hBlo hAhi (le_of_lt hApos) (le_of_lt hBpos)]
  have hghi : Real.log 2 / (3 * Real.log 2 + Real.log (5/4))
      ≤ ((320456389684287015693862627866615457 : ℝ)
          / 462320844218702047886914903345201152 + 1 / 36028797018963968)
        / (3 * (320456389684287015693862627866615457
              / 462320844218702047886914903345201152 + 1 / 36028797018963968)
           + (258957612911637007988357 / 1160497856140136718750000
              - 1 / 47683715820312500)) := by
    rw [div_le_div_iff hDpos (by norm_num)]
    nlinarith [mul_le_mul hBhi hAlo (by norm_num :
        (0:ℝ) ≤ 258957612911637007988357 / 1160497856140136718750000
          - 1 / 47683715820312500) (by norm_num :
        (0:ℝ) ≤ 320456389684287015693862627866615457
          / 462320844218702047886914903345201152 + 1 / 36028797018963968)]
  rw [logb_ten_two_eq, show (2:ℝ) ^ (-48 : ℤ) = 1 / 281474976710656 by norm_num,
    abs_lt]
  constructor
  · have hnum : -(1/281474976710656 : ℝ)
        < 10591551377341 / 35184372088832
          - ((320456389684287015693862627866615457 : ℝ)
              / 462320844218702047886914903345201152 + 1 / 36028797018963968)
            / (3 * (320456389684287015693862627866615457
                  / 462320844218702047886914903345201152 + 1 / 36028797018963968)
               + (258957612911637007988357 / 1160497856140136718750000
                  - 1 / 47683715820312500)) := by
      norm_num
    linarith
  · have hnum : (10591551377341 : ℝ) / 35184372088832
        - ((320456389684287015693862627866615457 : ℝ)
            / 462320844218702047886914903345201152 - 1 / 36028797018963968)
          / (3 * (320456389684287015693862627866615457
                / 462320844218702047886914903345201152 - 1 / 36028797018963968)
             + (258957612911637007988357 / 1160497856140136718750000
                + 1 / 47683715820312500))
        < 1/281474976710656 := by
      norm_num
    linarith

theorem grid_nearest (L : ℝ) (hL3 : 3 < L)
    (hc : |(13933176 : ℝ) / 4194304 - L| < 2 ^ (-23 : ℤ)) :
    ∀ k e : ℤ, -149 ≤ e → |k| < 2 ^ 24 →
      |(13933176 : ℝ) / 4194304 - L| ≤ |(k : ℝ) * 2 ^ e - L| := by
  intro k e he hk
  have h2pos : ∀ m : ℤ, (0:ℝ) < 2 ^ m := fun m => zpow_pos (by norm_num) m
  rcases le_or_lt (-22) e with h22 | h22
  · have hke : (k : ℝ) * 2 ^ e = ((k * 2 ^ (e + 22).toNat : ℤ) : ℝ) * 2 ^ (-22 : ℤ) := by
      push_cast
      rw [← zpow_natCast (2:ℝ) (e + 22).toNat, mul_assoc,
        ← zpow_add₀ (by norm_num : (2:ℝ) ≠ 0),
        show ((e + 22).toNat : ℤ) + (-22) = e from by omega]
    rw [hke]
    rcases eq_or_ne (k * 2 ^ (e + 22).toNat) 13933176 with hKe | hKe
    · rw [hKe]
      rw [show ((13933176 : ℤ) : ℝ) * 2 ^ (-22:ℤ) = 13933176 / 4194304 by norm_num]
    · have h1 : (1 : ℝ) ≤ |((k * 2 ^ (e + 22).toNat : ℤ) : ℝ) - 13933176| := by
        have hz : (1 : ℤ) ≤ |k * 2 ^ (e + 22).toNat - 13933176| := by
          rcases abs_cases (k * 2 ^ (e + 22).toNat - 13933176) with ⟨he1, he2⟩ | ⟨he1, he2⟩ <;>
            omega
        calc (1:ℝ) = ((1:ℤ):ℝ) := by norm_num
        _ ≤ ((|k * 2 ^ (e + 22).toNat - 13933176| : ℤ) : ℝ) := by exact_mod_cast hz
        _ = |((k * 2 ^ (e + 22).toNat : ℤ) : ℝ) - 13933176| := by
            rw [Int.cast_abs]; push_cast; ring_nf
      have hdist : (2:ℝ) ^ (-23:ℤ) * 2
          ≤ |((k * 2 ^ (e + 22).toNat : ℤ) : ℝ) * 2 ^ (-22:ℤ) - 13933176 / 4194304| := by
        have hfac : ((k * 2 ^ (e + 22).toNat : ℤ) : ℝ) * 2 ^ (-22:ℤ) - 13933176 / 4194304
            = (((k * 2 ^ (e + 22).toNat : ℤ) : ℝ) - 13933176) * 2 ^ (-22:ℤ) := by
          rw [show (13933176:ℝ) / 4194304 = 13933176 * 2 ^ (-22:ℤ) from by norm_num]
          ring
        rw [hfac, abs_mul, abs_of_pos (h2pos _)]
        have h22eq : (2:ℝ) ^ (-23:ℤ) * 2 = 1 * 2 ^ (-22:ℤ) := by
          rw [one_mul, show ((-22):ℤ) = -23 + 1 from by norm_num,
            zpow_add₀ (by norm_num : (2:ℝ) ≠ 0)]
          norm_num
        rw [h22eq]
        exact mul_le_mul_of_nonneg_right h1 (le_of_lt (h2pos _))
      have htri : |((k * 2 ^ (e + 22).toNat : ℤ) : ℝ) * 2 ^ (-22:ℤ) - 13933176 / 4194304|
          ≤ |((k * 2 ^ (e + 22).toNat : ℤ) : ℝ) * 2 ^ (-22:ℤ) - L|
            + |L - 13933176 / 4194304| := abs_sub_le _ _ _
      rw [abs_sub_comm L (13933176 / 4194304 : ℝ)] at htri
      linarith
  · have hkv : |(k:ℝ) * 2 ^ e| ≤ 2 := by
      rw [abs_mul, abs_of_pos (h2pos _)]
      have h1 : |(k:ℝ)| ≤ 2 ^ (24 : ℤ) := by
        have hz : |k| ≤ 2 ^ 24 := le_of_lt hk
        calc |(k:ℝ)| = ((|k| : ℤ) : ℝ) := by rw [Int.cast_abs]
        _ ≤ ((2 ^ 24 : ℤ) : ℝ) := by exact_mod_cast hz
        _ = 2 ^ (24 : ℤ) := by norm_num
      have h2 : (2:ℝ) ^ e ≤ 2 ^ (-23 : ℤ) := by
        apply zpow_le_zpow_right₀ (by norm_num : (1:ℝ) ≤ 2)
        omega
      calc |(k:ℝ)| * 2 ^ e ≤ 2 ^ (24:ℤ) * 2 ^ (-23:ℤ) :=
        mul_le_mul h1 h2 (le_of_lt (h2pos _)) (le_of_lt (h2pos _))
      _ = 2 := by
          rw [← zpow_add₀ (by norm_num : (2:ℝ) ≠ 0)]
          norm_num
    have hfar : 1 ≤ |(k:ℝ) * 2 ^ e - L| := by
      have h4 : |L| - |(k:ℝ) * 2 ^ e| ≤ |L - (k:ℝ) * 2 ^ e| := abs_sub_abs_le_abs_sub _ _
      rw [abs_of_pos (by linarith : (0:ℝ) < L), abs_sub_comm] at h4
      linarith
    have hsmall : |(13933176:ℝ) / 4194304 - L| < 1 := by
      have : (2:ℝ) ^ (-23:ℤ) ≤ 1 := by norm_num
      linarith
    linarith

/-- C9: the constant table holds the values the spec assigns: `shift`
decodes to exactly `1.5·2^23`; `log10_2` decodes to `13933176·2^(−22)`,
which is within half an ULP (`2^(−23)` at that magnitude) of `log₂ 10` and
at least as close to `log₂ 10` as every number `k·2^e` with
`|k| < 2^24, e ≥ −149` (i.e. it is `log₂ 10` rounded to single precision);
and `log2_10_hi`, `log2_10_lo` decode to a high/low pair whose exact sum is
within `2^(−48)` of `log₁₀ 2` — far beyond single precision (`2^(−24)`). -/
theorem claim_C9_constant_table :
    (decodeVal data_shift = .fin ⟨12582912, 0⟩ ∧ (12582912 : ℚ) = 3 / 2 * 2 ^ 23)
    ∧ (decodeVal data_log10_2 = .fin ⟨13933176, -22⟩
       ∧ |((fvalQ data_log10_2 : ℚ) : ℝ) - Real.logb 2 10| < 2 ^ (-23 : ℤ)
       ∧ ∀ k e : ℤ, -149 ≤ e → |k| < 2 ^ 24 →
           |((fvalQ data_log10_2 : ℚ) : ℝ) - Real.logb 2 10|
             ≤ |(k : ℝ) * 2 ^ e - Real.logb 2 10|)
    ∧ (decodeVal data_log2_10_hi = .fin ⟨10100891, -25⟩
       ∧ decodeVal data_log2_10_lo = .fin ⟨-16124000, -50⟩
       ∧ |((fvalQ data_log2_10_hi + fvalQ data_log2_10_lo : ℚ) : ℝ)
            - Real.logb 10 2| < 2 ^ (-48 : ℤ)) := by
  have hc10 : ((fvalQ data_log10_2 : ℚ) : ℝ) = (13933176 : ℝ) / 4194304 := by
    rw [fvalQ_eq_of_fin (show decodeVal data_log10_2 = .fin ⟨13933176, -22⟩ from by decide),
      Dy.val]
    push_cast
    norm_num
  have hcsum : ((fvalQ data_log2_10_hi + fvalQ data_log2_10_lo : ℚ) : ℝ)
      = (10591551377341 : ℝ) / 35184372088832 := by
    rw [fvalQ_eq_of_fin
        (show decodeVal data_log2_10_hi = .fin ⟨10100891, -25⟩ from by decide),
      fvalQ_eq_of_fin
        (show decodeVal data_log2_10_lo = .fin ⟨-16124000, -50⟩ from by decide),
      Dy.val, Dy.val]
    push_cast
    norm_num
  refine ⟨⟨by decide, by norm_num⟩, ⟨by decide, ?_, ?_⟩, ⟨by decide, by decide, ?_⟩⟩
  · rw [hc10]
    exact logb_two_ten_bounds.1
  · rw [hc10]
    exact grid_nearest _ logb_two_ten_bounds.2 logb_two_ten_bounds.1
  · rw [hcsum]
    exact hi_lo_sum_bound

/-- Witness for C9's universally quantified nearest-grid clause, at the
representable number `3·2^0`. -/
theorem claim_C9_witness :
    |((fvalQ data_log10_2 : ℚ) : ℝ) - Real.logb 2 10|
      ≤ |((3 : ℤ) : ℝ) * 2 ^ (0 : ℤ) - Real.logb 2 10| :=
  claim_C9_constant_table.2.1.2.2 3 0 (by norm_num) (by norm_num)

end VExp10
